import Mathlib

set_option autoImplicit false
set_option maxHeartbeats 1000000

/-!
Shallow embedding of `powerline/lib/config.py` (class `ConfigLoader`).

Python sets are modelled as duplicate-free lists ordered by insertion
(`addToSet`), Python dicts as association lists ordered by key insertion
(`alookup` / `setAssoc`), matching CPython's deterministic dict order and a
fixed determinization of set iteration order.  Callbacks and condition
functions are identified by numeric ids; their behaviour in a given worker
cycle is supplied by an environment.  Exceptions are modelled with `Option`
(`none` = the call raised).
-/

abbrev FPath := Nat
abbrev FId := Nat
abbrev CId := Nat
abbrev Key := Nat
abbrev Value := Nat

/-- Result of calling a condition function: it either raises an exception,
or returns a falsy value (`ret none`) or a truthy path (`ret (some p)`). -/
inductive CondRes where
  | raise : CondRes
  | ret : Option FPath → CondRes
deriving DecidableEq

/-- Messages passed to `ConfigLoader.exception` inside the worker loop:
`condError k` for "Error while running condition function for key k",
`loadError p` for "Error while loading p". -/
inductive LogEntry where
  | condError : Key → LogEntry
  | loadError : FPath → LogEntry
deriving DecidableEq

/-- State of one `ConfigLoader` instance.  `watched`, `missing`, `loaded`
mirror the attributes of the same names; `interval` mirrors `self.interval`;
`pl` records whether an error sink is attached (`self.pl` truthy);
`watchSet` models the external watcher's set of registered paths,
grown by `self.watcher.watch(path)` and never shrunk. -/
structure State where
  watched : List (FPath × List FId)
  missing : List (Key × List (CId × FId))
  loaded : List (FPath × Value)
  interval : Option Nat
  pl : Bool
  watchSet : List FPath
deriving DecidableEq

/-- Dict lookup: first value bound to key `k`. -/
def alookup {α β : Type} [DecidableEq α] (l : List (α × β)) (k : α) : Option β :=
  match l with
  | [] => none
  | (a, b) :: t => if a = k then some b else alookup t k

/-- Dict assignment `d[k] = v`: update in place, or append a new binding. -/
def setAssoc {α β : Type} [DecidableEq α] (l : List (α × β)) (k : α) (v : β) :
    List (α × β) :=
  match l with
  | [] => [(k, v)]
  | (a, b) :: t => if a = k then (k, v) :: t else (a, b) :: setAssoc t k v

/-- Python `set.add`: no-op when already present, else insert (at the end,
our determinization of set order by insertion). -/
def addToSet {α : Type} [DecidableEq α] (s : List α) (x : α) : List α :=
  if x ∈ s then s else s ++ [x]

/-- Embedding of `ConfigLoader.set_interval`. -/
def set_interval (st : State) (i : Option Nat) : State :=
  { st with interval := i }

/-- Embedding of `ConfigLoader.register(function, path)`:
`self.watched[path].add(function)` on a defaultdict, then
`self.watcher.watch(path)`. -/
def register (st : State) (function : FId) (path : FPath) : State :=
  { st with
    watched := setAssoc st.watched path
      (addToSet ((alookup st.watched path).getD []) function),
    watchSet := addToSet st.watchSet path }

/-- Embedding of `ConfigLoader.register_missing(condition_function, function, key)`:
`self.missing[key].add((condition_function, function))` on a defaultdict. -/
def register_missing (st : State) (condition_function : CId) (function : FId)
    (key : Key) : State :=
  { st with
    missing := setAssoc st.missing key
      (addToSet ((alookup st.missing key).getD []) (condition_function, function)) }

/-- The per-entry body of `unregister_functions`: `functions -= removed`. -/
def remainingFns (removed : List FId) (fns : List FId) : List FId :=
  fns.filter (fun f => ! decide (f ∈ removed))

/-- Paths whose callback set empties under `functions -= removed`
(these get `self.watched.pop(path)` and `self.loaded.pop(path, None)`). -/
def emptiedPaths (removed : List FId) (w : List (FPath × List FId)) : List FPath :=
  w.filterMap (fun e => if (remainingFns removed e.2).isEmpty then some e.1 else none)

/-- Embedding of `ConfigLoader.unregister_functions(removed_functions)`. -/
def unregister_functions (st : State) (removed : List FId) : State :=
  { st with
    watched := st.watched.filterMap (fun e =>
      if (remainingFns removed e.2).isEmpty then none
      else some (e.1, remainingFns removed e.2)),
    loaded := st.loaded.filter
      (fun pv => ! decide (pv.1 ∈ emptiedPaths removed st.watched)) }

/-- Embedding of `ConfigLoader.unregister_missing(removed_functions)`. -/
def unregister_missing (st : State) (removed : List (CId × FId)) : State :=
  { st with
    missing := st.missing.filterMap (fun e =>
      if (e.2.filter (fun q => ! decide (q ∈ removed))).isEmpty then none
      else some (e.1, e.2.filter (fun q => ! decide (q ∈ removed)))) }

/-- Result of `ConfigLoader.load`: `value = none` means the loader raised and
the exception propagates to the caller; `invokedLoader` records whether
`self._load` was called. -/
structure LoadRes where
  value : Option Value
  state : State
  invokedLoader : Bool
deriving DecidableEq

/-- Embedding of `ConfigLoader.load(path)`: try the `loaded` dict first; on `KeyError`
call `self._load(path)` and, when an interval is configured, store the
result.  `ld` is the pluggable loader (`none` = it raised). -/
def load (st : State) (ld : FPath → Option Value) (path : FPath) : LoadRes :=
  match alookup st.loaded path with
  | some v => ⟨some v, st, false⟩
  | none =>
    match ld path with
    | none => ⟨none, st, true⟩
    | some r =>
      if st.interval.isSome
      then ⟨some r, { st with loaded := setAssoc st.loaded path r }, true⟩
      else ⟨some r, st, true⟩

/-- Embedding of `ConfigLoader.exception(msg)`: with a sink attached it forwards the entry
tagged with the fixed source tag `config_loader` and returns it; with no sink
attached it raises (`none`). -/
def exception (pl : Bool) (e : LogEntry) : Option (String × LogEntry) :=
  if pl then some ("config_loader", e) else none

/-- Modelled from the spec: the Detector (`powerline/lib/file_watcher.py`,
not part of the sources under study) exposes `check(path) -> bool`, "has
`path` changed since last check, consuming that change".  `pending` is the
set of paths with an unconsumed change; a successful check removes it. -/
def checkPath (pending : List FPath) (p : FPath) : Bool × List FPath :=
  if p ∈ pending then (true, pending.filter (fun q => ! decide (q = p))) else (false, pending)

/-- Output of the change-detection phase. -/
structure DetectOut where
  pending : List FPath
  toload : List FPath
  calls : List (FId × FPath)
deriving DecidableEq

/-- Inner loop of phase 1: `for function in functions: if self.watcher(path):
function(path); toload.append(path)`.  Note the watcher check sits inside the
per-callback loop. -/
def detectFns (p : FPath) (fns : List FId) (pending : List FPath) : DetectOut :=
  match fns with
  | [] => ⟨pending, [], []⟩
  | f :: rest =>
    let c := checkPath pending p
    if c.1 then
      let r := detectFns p rest c.2
      ⟨r.pending, p :: r.toload, (f, p) :: r.calls⟩
    else
      let r := detectFns p rest c.2
      ⟨r.pending, r.toload, r.calls⟩

/-- Phase 1: `for path, functions in self.watched.items(): ...`. -/
def detectAll (w : List (FPath × List FId)) (pending : List FPath) : DetectOut :=
  match w with
  | [] => ⟨pending, [], []⟩
  | (p, fns) :: rest =>
    let r1 := detectFns p fns pending
    let r2 := detectAll rest r1.pending
    ⟨r2.pending, r1.toload ++ r2.toload, r1.calls ++ r2.calls⟩

/-- Output of resolving the pair set of one missing key. -/
structure ResolveOut where
  remaining : List (CId × FId)
  toload : List FPath
  calls : List (FId × FPath)
  logs : List (String × LogEntry)
  aborted : Bool
deriving DecidableEq

/-- Inner loop of phase 2 for one key: try `condition_function(key)`; on an
exception call `self.exception` (which itself raises when no sink is
attached, aborting the cycle); on a truthy path append to `toload`, call
`function(path)` and remove the pair; on a falsy result keep the pair. -/
def resolvePairs (pl : Bool) (cond : CId → Key → CondRes) (k : Key)
    (pairs : List (CId × FId)) : ResolveOut :=
  match pairs with
  | [] => ⟨[], [], [], [], false⟩
  | (c, f) :: rest =>
    match cond c k with
    | CondRes.raise =>
      match exception pl (LogEntry.condError k) with
      | some entry =>
        let r := resolvePairs pl cond k rest
        ⟨(c, f) :: r.remaining, r.toload, r.calls, entry :: r.logs, r.aborted⟩
      | none => ⟨(c, f) :: rest, [], [], [], true⟩
    | CondRes.ret none =>
      let r := resolvePairs pl cond k rest
      ⟨(c, f) :: r.remaining, r.toload, r.calls, r.logs, r.aborted⟩
    | CondRes.ret (some p) =>
      let r := resolvePairs pl cond k rest
      ⟨r.remaining, p :: r.toload, (f, p) :: r.calls, r.logs, r.aborted⟩

/-- Output of phase 2 over all missing keys. -/
structure MissingOut where
  missing : List (Key × List (CId × FId))
  toload : List FPath
  calls : List (FId × FPath)
  logs : List (String × LogEntry)
  aborted : Bool
deriving DecidableEq

/-- Phase 2: `for key, functions in list(self.missing.items()): ...`;
keys whose pair set empties are popped.  An exception escaping
`self.exception` stops the iteration (it propagates out of `run`). -/
def resolveMissing (pl : Bool) (cond : CId → Key → CondRes)
    (m : List (Key × List (CId × FId))) : MissingOut :=
  match m with
  | [] => ⟨[], [], [], [], false⟩
  | (k, pairs) :: rest =>
    let r := resolvePairs pl cond k pairs
    if r.aborted then
      ⟨(k, r.remaining) :: rest, r.toload, r.calls, r.logs, true⟩
    else
      let r2 := resolveMissing pl cond rest
      ⟨(if r.remaining.isEmpty then [] else [(k, r.remaining)]) ++ r2.missing,
        r.toload ++ r2.toload, r.calls ++ r2.calls, r.logs ++ r2.logs, r2.aborted⟩

/-- Output of the reload phase. -/
structure ReloadOut where
  loaded : List (FPath × Value)
  logs : List (String × LogEntry)
  aborted : Bool
deriving DecidableEq

/-- Phase 3: `for path in toload: self.loaded[path] = self._load(path)` with
failures routed through `self.exception` (which itself raises, aborting the
loop, when no sink is attached).  `ld` is the loader (`none` = it raised). -/
def reloadPaths (pl : Bool) (ld : FPath → Option Value) (toload : List FPath)
    (loaded : List (FPath × Value)) : ReloadOut :=
  match toload with
  | [] => ⟨loaded, [], false⟩
  | p :: rest =>
    match ld p with
    | some v => reloadPaths pl ld rest (setAssoc loaded p v)
    | none =>
      match exception pl (LogEntry.loadError p) with
      | some entry =>
        let r := reloadPaths pl ld rest loaded
        ⟨r.loaded, entry :: r.logs, r.aborted⟩
      | none => ⟨loaded, [], true⟩

/-- Output of one worker-loop cycle. -/
structure CycleOut where
  state : State
  pending : List FPath
  calls : List (FId × FPath)
  logs : List (String × LogEntry)
  aborted : Bool
deriving DecidableEq

/-- One iteration of the `while` body of `ConfigLoader.run`:
change-detection phase, missing-resolution phase, reload phase.
`pending` is the watcher's set of unconsumed changes; `cond` gives each
condition function's behaviour this cycle; `ld` the loader's.
`aborted = true` models an exception propagating out of `run`. -/
def runCycle (st : State) (pending : List FPath) (cond : CId → Key → CondRes)
    (ld : FPath → Option Value) : CycleOut :=
  let d := detectAll st.watched pending
  let m := resolveMissing st.pl cond st.missing
  if m.aborted then
    ⟨{ st with missing := m.missing }, d.pending, d.calls ++ m.calls, m.logs, true⟩
  else
    let r := reloadPaths st.pl ld (d.toload ++ m.toload) st.loaded
    ⟨{ st with missing := m.missing, loaded := r.loaded }, d.pending,
      d.calls ++ m.calls, m.logs ++ r.logs, r.aborted⟩

/-- Per-cycle external behaviour: changes arriving at the watcher before the
cycle, the condition functions' results, the loader's results. -/
structure Env where
  newChanges : List FPath
  cond : CId → Key → CondRes
  ld : FPath → Option Value

/-- Accumulated observation of a run of the worker loop.  `calls` and `logs`
are tagged with the index of the cycle that produced them; `cycles` counts
the cycle bodies that started. -/
structure LoopOut where
  state : State
  pending : List FPath
  calls : List (Nat × FId × FPath)
  logs : List (Nat × String × LogEntry)
  cycles : Nat
  aborted : Bool

/-- Embedding of `ConfigLoader.run`: `while self.interval is not None and not
self.shutdown_event.is_set(): <cycle>; self.shutdown_event.wait(self.interval)`.
`sig n` is the value of `shutdown_event.is_set()` at the n-th observation
point (the loop-top check; a set signal makes the inter-cycle `wait` return
at once, so the wait and the following loop-top check collapse into the next
observation).  `fuel` bounds the observation horizon.
Modelled from the spec: the thread runner (`powerline/lib/threaded.py`, not
part of the sources under study) runs `run` once; an exception escaping it
ends the worker, which is not restarted. -/
def runLoop (fuel : Nat) (n : Nat) (st : State) (pending : List FPath)
    (envf : Nat → Env) (sig : Nat → Bool) : LoopOut :=
  match fuel with
  | 0 => ⟨st, pending, [], [], 0, false⟩
  | fuel' + 1 =>
    if st.interval = none then ⟨st, pending, [], [], 0, false⟩
    else if sig n then ⟨st, pending, [], [], 0, false⟩
    else
      let env := envf n
      let c := runCycle st (pending ++ env.newChanges) env.cond env.ld
      if c.aborted then
        ⟨c.state, c.pending, c.calls.map (fun x => (n, x)),
          c.logs.map (fun x => (n, x)), 1, true⟩
      else
        let r := runLoop fuel' (n + 1) c.state c.pending envf sig
        ⟨r.state, r.pending, c.calls.map (fun x => (n, x)) ++ r.calls,
          c.logs.map (fun x => (n, x)) ++ r.logs, r.cycles + 1, r.aborted⟩

/-- Concrete scenario for C1: path 0 carries two registered callbacks, 1 and
2, and a change on path 0 is pending at the watcher. -/
def c1state : State :=
  ⟨[(0, [1, 2])], [], [], some 1, true, [0]⟩

/-- Loader used to populate the cache in the C6 scenario. -/
def c6ld1 : FPath → Option Value := fun _ => some 5

/-- A later loader that would return a different value. -/
def c6ld2 : FPath → Option Value := fun _ => some 9

/-- Fresh loader state with polling enabled (interval 1). -/
def c6st0 : State := ⟨[], [], [], some 1, true, []⟩

/-- The C6 scenario: load path 0 while an interval is configured (caching 5),
then unset the interval. -/
def c6st1 : State := set_interval (load c6st0 c6ld1 0).state none

/-- Per-pair characterization: does the pair stay pending this cycle? -/
def pairKept (cond : CId → Key → CondRes) (k : Key) (q : CId × FId) : Bool :=
  match cond q.1 k with
  | CondRes.ret (some _) => false
  | _ => true

/-- Per-pair characterization: the path recorded for reload, if any. -/
def pairFire (cond : CId → Key → CondRes) (k : Key) (q : CId × FId) :
    Option FPath :=
  match cond q.1 k with
  | CondRes.ret (some p) => some p
  | _ => none

/-- Per-pair characterization: the callback invocation produced, if any. -/
def pairCall (cond : CId → Key → CondRes) (k : Key) (q : CId × FId) :
    Option (FId × FPath) :=
  match cond q.1 k with
  | CondRes.ret (some p) => some (q.2, p)
  | _ => none

/-- Per-pair characterization: the log entry produced, if any. -/
def pairLog (cond : CId → Key → CondRes) (k : Key) (q : CId × FId) :
    Option (String × LogEntry) :=
  match cond q.1 k with
  | CondRes.raise => some ("config_loader", LogEntry.condError k)
  | _ => none

/-- The Registry/MissingRegistry invariant of the spec: an entry exists iff
its callback/pair set is non-empty. -/
def RegInv (st : State) : Prop :=
  (∀ e ∈ st.watched, e.2 ≠ []) ∧ (∀ e ∈ st.missing, e.2 ≠ [])

/-! ## Basic lemmas about the dict and set model -/

theorem alookup_setAssoc_self {α β : Type} [DecidableEq α] (l : List (α × β))
    (k : α) (v : β) : alookup (setAssoc l k v) k = some v := by
  induction l with
  | nil => simp [setAssoc, alookup]
  | cons hd tl ih =>
    obtain ⟨a, b⟩ := hd
    by_cases h : a = k
    · simp [setAssoc, alookup, h]
    · simp [setAssoc, alookup, h, ih]

theorem alookup_setAssoc_ne {α β : Type} [DecidableEq α] (l : List (α × β))
    (k k' : α) (v : β) (h : k' ≠ k) :
    alookup (setAssoc l k v) k' = alookup l k' := by
  induction l with
  | nil => simp [setAssoc, alookup, Ne.symm h]
  | cons hd tl ih =>
    obtain ⟨a, b⟩ := hd
    by_cases ha : a = k
    · subst ha
      simp [setAssoc, alookup, Ne.symm h]
    · simp [setAssoc, alookup, ha, ih]

/-! ## C1 -/

/-- C1: the claim says every callback registered on a changed path is
invoked exactly once per cycle.  Evaluating one worker cycle on `c1state`
(two callbacks on path 0, one pending change) shows the code invokes only
callback 1: the watcher check sits inside the per-callback loop and consumes
the change at the first callback, so callback 2 never runs.  The Cache part
of the claim does hold (path 0 is reloaded to the latest value). -/
theorem C1_code_bug_only_first_callback_runs :
    (runCycle c1state [0] (fun _ _ => CondRes.ret none) (fun _ => some 7)).calls
      = [(1, 0)] ∧
    ((2 : FId), (0 : FPath)) ∉
      (runCycle c1state [0] (fun _ _ => CondRes.ret none) (fun _ => some 7)).calls ∧
    alookup (runCycle c1state [0]
      (fun _ _ => CondRes.ret none) (fun _ => some 7)).state.loaded 0 = some 7 := by
  decide

/-! ## C6 -/

/-- C6 counterexample: with no interval configured, `load 0` neither invokes
the loader nor bypasses the cache — it returns the stale cached value 5,
because `load` consults `self.loaded` before looking at the interval and
cache entries written while polling was enabled are never evicted when the
interval is unset. -/
theorem C6_counterexample_stale_cache_read :
    c6st1.interval = none ∧
    (load c6st1 c6ld2 0).invokedLoader = false ∧
    (load c6st1 c6ld2 0).value = some 5 := by
  decide

/-- C6 (amended): when no interval is configured AND the Cache holds no
entry for `p` (in particular whenever polling was never enabled), every call
to `load p` — including repeated calls — invokes the loader, returns its
result, and leaves the state (hence the Cache) unchanged. -/
theorem C6_no_interval_load_passthrough (st : State)
    (ld ld' : FPath → Option Value) (p : FPath)
    (hint : st.interval = none) (hmiss : alookup st.loaded p = none) :
    (load st ld p).invokedLoader = true ∧
    (load st ld p).value = ld p ∧
    (load st ld p).state = st ∧
    (load (load st ld p).state ld' p).invokedLoader = true := by
  have hs : st.interval.isSome = false := by rw [hint]; rfl
  cases h : ld p with
  | none =>
    refine ⟨by simp [load, hmiss, h], by simp [load, hmiss, h], by simp [load, hmiss, h], ?_⟩
    cases h' : ld' p with
    | none => simp [load, hmiss, h, h']
    | some r => simp [load, hmiss, h, h', hs]
  | some r =>
    refine ⟨by simp [load, hmiss, h, hs], by simp [load, hmiss, h, hs],
      by simp [load, hmiss, h, hs], ?_⟩
    cases h' : ld' p with
    | none => simp [load, hmiss, h, h', hs]
    | some r' => simp [load, hmiss, h, h', hs]

/-- Witness for the amended C6 theorem at a concrete input. -/
theorem C6_no_interval_load_passthrough_witness :
    (load ⟨[], [], [], none, true, []⟩ (fun _ => some 5) 0).invokedLoader = true ∧
    (load ⟨[], [], [], none, true, []⟩ (fun _ => some 5) 0).value = some 5 ∧
    (load ⟨[], [], [], none, true, []⟩ (fun _ => some 5) 0).state
      = ⟨[], [], [], none, true, []⟩ ∧
    (load (load ⟨[], [], [], none, true, []⟩ (fun _ => some 5) 0).state
      (fun _ => some 9) 0).invokedLoader = true :=
  C6_no_interval_load_passthrough ⟨[], [], [], none, true, []⟩
    (fun _ => some 5) (fun _ => some 9) 0 rfl rfl

/-! ## Lemmas about the registry operations -/

theorem alookup_some_mem {α β : Type} [DecidableEq α] {l : List (α × β)}
    {p : α} {s : β} (hl : alookup l p = some s) : (p, s) ∈ l := by
  induction l with
  | nil => simp [alookup] at hl
  | cons hd tl ih =>
    obtain ⟨a, b⟩ := hd
    by_cases hap : a = p
    · subst hap
      simp [alookup] at hl
      simp [hl]
    · simp only [alookup, hap, ite_false] at hl
      exact List.mem_cons_of_mem _ (ih hl)

theorem alookup_eq_none_of_not_mem_keys {α β : Type} [DecidableEq α]
    (l : List (α × β)) (p : α) (hp : p ∉ l.map Prod.fst) : alookup l p = none := by
  induction l with
  | nil => rfl
  | cons hd tl ih =>
    obtain ⟨a, b⟩ := hd
    simp only [List.map_cons, List.mem_cons] at hp
    push_neg at hp
    simp [alookup, Ne.symm hp.1, ih hp.2]

theorem keys_filterMap_dropEmpty_subset {α β : Type} [DecidableEq α]
    (pred : β → Bool) (l : List (α × List β)) (p : α)
    (hp : p ∈ (l.filterMap (fun e =>
      if (e.2.filter pred).isEmpty then none
      else some (e.1, e.2.filter pred))).map Prod.fst) :
    p ∈ l.map Prod.fst := by
  rw [List.mem_map] at hp
  obtain ⟨x, hx, hxp⟩ := hp
  rw [List.mem_filterMap] at hx
  obtain ⟨e, he, hex⟩ := hx
  rw [List.mem_map]
  refine ⟨e, he, ?_⟩
  by_cases hb : (e.2.filter pred).isEmpty
  · simp [hb] at hex
  · simp only [hb, Bool.false_eq_true, ite_false, Option.some.injEq] at hex
    rw [← hex] at hxp
    exact hxp

theorem alookup_dropEmpty_none {α β : Type} [DecidableEq α] (pred : β → Bool)
    (l : List (α × List β)) (p : α) (s : List β)
    (hnodup : (l.map Prod.fst).Nodup)
    (hl : alookup l p = some s) (hempty : s.filter pred = []) :
    alookup (l.filterMap (fun e =>
      if (e.2.filter pred).isEmpty then none
      else some (e.1, e.2.filter pred))) p = none := by
  induction l with
  | nil => simp [alookup] at hl
  | cons hd tl ih =>
    obtain ⟨a, b⟩ := hd
    rw [List.map_cons, List.nodup_cons] at hnodup
    by_cases hap : a = p
    · subst hap
      simp [alookup] at hl
      have hbe : (b.filter pred).isEmpty = true := by
        simp [List.isEmpty_iff, hl, hempty]
      rw [List.filterMap_cons, hbe]
      apply alookup_eq_none_of_not_mem_keys
      intro hmem
      exact hnodup.1 (keys_filterMap_dropEmpty_subset pred tl a hmem)
    · simp only [alookup, hap, ite_false] at hl
      cases hbe : (b.filter pred).isEmpty with
      | true => rw [List.filterMap_cons, hbe]; exact ih hnodup.2 hl
      | false =>
        rw [List.filterMap_cons, hbe]
        simp only [alookup, hap, ite_false]
        exact ih hnodup.2 hl

theorem alookup_dropEmpty_kept {α β : Type} [DecidableEq α] (pred : β → Bool)
    (l : List (α × List β)) (p : α) (s : List β)
    (hl : alookup l p = some s) (hkeep : s.filter pred = s) (hne : s ≠ []) :
    alookup (l.filterMap (fun e =>
      if (e.2.filter pred).isEmpty then none
      else some (e.1, e.2.filter pred))) p = some s := by
  induction l with
  | nil => simp [alookup] at hl
  | cons hd tl ih =>
    obtain ⟨a, b⟩ := hd
    by_cases hap : a = p
    · subst hap
      simp [alookup] at hl
      subst hl
      have hbe : (b.filter pred).isEmpty = false := by
        rw [hkeep]; simpa [List.isEmpty_iff] using hne
      rw [List.filterMap_cons, hbe]
      simp [alookup, hkeep]
    · simp only [alookup, hap, ite_false] at hl
      cases hbe : (b.filter pred).isEmpty with
      | true => rw [List.filterMap_cons, hbe]; exact ih hl
      | false =>
        rw [List.filterMap_cons, hbe]
        simp only [alookup, hap, ite_false]
        exact ih hl

theorem alookup_filter_out {α β : Type} [DecidableEq α]
    (l : List (α × β)) (drop : List α) (p : α) (hp : p ∈ drop) :
    alookup (l.filter (fun pv => ! decide (pv.1 ∈ drop))) p = none := by
  induction l with
  | nil => rfl
  | cons hd tl ih =>
    obtain ⟨a, b⟩ := hd
    by_cases had : a ∈ drop
    · simpa [List.filter_cons, had] using ih
    · have hap : a ≠ p := fun h => had (h ▸ hp)
      simpa [List.filter_cons, had, alookup, hap] using ih

theorem alookup_filter_keep {α β : Type} [DecidableEq α]
    (l : List (α × β)) (drop : List α) (p : α) (hp : p ∉ drop) :
    alookup (l.filter (fun pv => ! decide (pv.1 ∈ drop))) p = alookup l p := by
  induction l with
  | nil => rfl
  | cons hd tl ih =>
    obtain ⟨a, b⟩ := hd
    by_cases had : a ∈ drop
    · have hap : a ≠ p := fun h => hp (h ▸ had)
      simpa [List.filter_cons, had, alookup, hap] using ih
    · by_cases hap : a = p
      · subst hap
        simp [List.filter_cons, had, alookup]
      · simpa [List.filter_cons, had, alookup, hap] using ih

theorem mem_emptiedPaths {removed : List FId} {w : List (FPath × List FId)}
    {p : FPath} {fns : List FId} (hl : alookup w p = some fns)
    (hempty : remainingFns removed fns = []) : p ∈ emptiedPaths removed w := by
  rw [emptiedPaths, List.mem_filterMap]
  exact ⟨(p, fns), alookup_some_mem hl, by simp [List.isEmpty_iff, hempty]⟩

theorem emptiedPaths_subset {removed : List FId} {w : List (FPath × List FId)}
    {p : FPath} (hp : p ∈ emptiedPaths removed w) : p ∈ w.map Prod.fst := by
  rw [emptiedPaths, List.mem_filterMap] at hp
  obtain ⟨e, he, hep⟩ := hp
  rw [List.mem_map]
  refine ⟨e, he, ?_⟩
  by_cases hb : (remainingFns removed e.2).isEmpty
  · simpa [hb] using hep
  · simp [hb] at hep

theorem mem_alookup_of_nodup {α β : Type} [DecidableEq α] {l : List (α × β)}
    (hnodup : (l.map Prod.fst).Nodup) {p : α} {b : β} (hmem : (p, b) ∈ l) :
    alookup l p = some b := by
  induction l with
  | nil => simp at hmem
  | cons hd tl ih =>
    obtain ⟨a, c⟩ := hd
    rw [List.map_cons, List.nodup_cons] at hnodup
    rcases List.mem_cons.mp hmem with h | h
    · obtain ⟨h1, h2⟩ := Prod.mk.injEq .. ▸ h
      subst h1; subst h2
      simp [alookup]
    · have hap : a ≠ p := by
        intro he
        subst he
        exact hnodup.1 (List.mem_map.mpr ⟨(a, b), h, rfl⟩)
      simp only [alookup, hap, ite_false]
      exact ih hnodup.2 h

/-! ## C5 -/

/-- C5: after a call to `unregister_functions` whose removed set contains
every callback registered for path `p`, the Registry (`watched`) no longer
has an entry for `p`, the Cache (`loaded`) no longer has an entry for `p`,
a subsequent `load p` invokes the loader (returning its result rather than a
cached value), and the watcher's `watch` registration set is untouched. -/
theorem C5_unregister_last_callback (st : State) (removed : List FId)
    (p : FPath) (fns : List FId) (ld : FPath → Option Value)
    (hnodup : (st.watched.map Prod.fst).Nodup)
    (hw : alookup st.watched p = some fns)
    (hsub : ∀ f ∈ fns, f ∈ removed) :
    alookup (unregister_functions st removed).watched p = none ∧
    alookup (unregister_functions st removed).loaded p = none ∧
    (unregister_functions st removed).watchSet = st.watchSet ∧
    (load (unregister_functions st removed) ld p).invokedLoader = true ∧
    (load (unregister_functions st removed) ld p).value = ld p := by
  have hempty : remainingFns removed fns = [] := by
    rw [remainingFns, List.filter_eq_nil_iff]
    intro f hf
    simp [hsub f hf]
  have h1 : alookup (unregister_functions st removed).watched p = none := by
    simp only [unregister_functions, remainingFns]
    exact alookup_dropEmpty_none (fun f => ! decide (f ∈ removed)) st.watched p fns
      hnodup hw (by simpa [remainingFns] using hempty)
  have h2 : alookup (unregister_functions st removed).loaded p = none := by
    simp only [unregister_functions]
    exact alookup_filter_out st.loaded _ p (mem_emptiedPaths hw hempty)
  refine ⟨h1, h2, rfl, ?_, ?_⟩
  · cases h : ld p with
    | none => simp [load, h2, h]
    | some r =>
      cases hi : (unregister_functions st removed).interval.isSome <;>
        simp [load, h2, h, hi]
  · cases h : ld p with
    | none => simp [load, h2, h]
    | some r =>
      cases hi : (unregister_functions st removed).interval.isSome <;>
        simp [load, h2, h, hi]

/-- Witness for C5 at a concrete input. -/
theorem C5_unregister_last_callback_witness :
    alookup (unregister_functions ⟨[(0, [1])], [], [(0, 9)], some 1, true, [0]⟩
      [1]).watched 0 = none ∧
    alookup (unregister_functions ⟨[(0, [1])], [], [(0, 9)], some 1, true, [0]⟩
      [1]).loaded 0 = none ∧
    (unregister_functions ⟨[(0, [1])], [], [(0, 9)], some 1, true, [0]⟩
      [1]).watchSet = [0] ∧
    (load (unregister_functions ⟨[(0, [1])], [], [(0, 9)], some 1, true, [0]⟩ [1])
      (fun _ => some 4) 0).invokedLoader = true ∧
    (load (unregister_functions ⟨[(0, [1])], [], [(0, 9)], some 1, true, [0]⟩ [1])
      (fun _ => some 4) 0).value = some 4 :=
  C5_unregister_last_callback ⟨[(0, [1])], [], [(0, 9)], some 1, true, [0]⟩
    [1] 0 [1] (fun _ => some 4) (by decide) (by decide) (by decide)

/-! ## C10 -/

/-- C10 (frame property): `unregister_functions S` leaves untouched the
callback set and the Cache entry of every path whose callback set is
disjoint from `S`, and never touches the MissingRegistry; symmetrically,
`unregister_missing S` leaves untouched every key whose pair set is disjoint
from `S` and never touches the Registry or the Cache. -/
theorem C10_unregister_frame (st : State) (removedF : List FId)
    (removedP : List (CId × FId)) (p : FPath) (fns : List FId)
    (k : Key) (prs : List (CId × FId))
    (hnodupW : (st.watched.map Prod.fst).Nodup)
    (hw : alookup st.watched p = some fns)
    (hdisjF : ∀ f ∈ fns, f ∉ removedF) (hneF : fns ≠ [])
    (hm : alookup st.missing k = some prs)
    (hdisjP : ∀ q ∈ prs, q ∉ removedP) (hneP : prs ≠ []) :
    alookup (unregister_functions st removedF).watched p = some fns ∧
    alookup (unregister_functions st removedF).loaded p = alookup st.loaded p ∧
    (unregister_functions st removedF).missing = st.missing ∧
    alookup (unregister_missing st removedP).missing k = some prs ∧
    (unregister_missing st removedP).watched = st.watched ∧
    (unregister_missing st removedP).loaded = st.loaded := by
  have hkeepF : fns.filter (fun f => ! decide (f ∈ removedF)) = fns :=
    List.filter_eq_self.mpr (fun f hf => by simp [hdisjF f hf])
  have hkeepP : prs.filter (fun q => ! decide (q ∈ removedP)) = prs :=
    List.filter_eq_self.mpr (fun q hq => by simp [hdisjP q hq])
  refine ⟨?_, ?_, rfl, ?_, rfl, rfl⟩
  · simp only [unregister_functions, remainingFns]
    exact alookup_dropEmpty_kept _ st.watched p fns hw hkeepF hneF
  · simp only [unregister_functions]
    apply alookup_filter_keep
    intro hmem
    rw [emptiedPaths, List.mem_filterMap] at hmem
    obtain ⟨e, he, hep⟩ := hmem
    by_cases hb : (remainingFns removedF e.2).isEmpty
    · simp only [hb, ite_true, Option.some.injEq] at hep
      have he' : (p, e.2) ∈ st.watched := by
        rw [← hep]; exact he
      have : alookup st.watched p = some e.2 := mem_alookup_of_nodup hnodupW he'
      rw [hw] at this
      obtain rfl : fns = e.2 := Option.some.injEq .. ▸ this
      rw [List.isEmpty_iff] at hb
      rw [remainingFns, hkeepF] at hb
      exact hneF hb
    · simp [hb] at hep
  · simp only [unregister_missing]
    exact alookup_dropEmpty_kept _ st.missing k prs hm hkeepP hneP

/-- Witness for C10 at a concrete input. -/
theorem C10_unregister_frame_witness :
    alookup (unregister_functions ⟨[(0, [1])], [(5, [(2, 3)])], [(0, 9)],
      some 1, true, [0]⟩ [4]).watched 0 = some [1] ∧
    alookup (unregister_functions ⟨[(0, [1])], [(5, [(2, 3)])], [(0, 9)],
      some 1, true, [0]⟩ [4]).loaded 0
      = alookup ([(0, 9)] : List (FPath × Value)) 0 ∧
    (unregister_functions ⟨[(0, [1])], [(5, [(2, 3)])], [(0, 9)],
      some 1, true, [0]⟩ [4]).missing = [(5, [(2, 3)])] ∧
    alookup (unregister_missing ⟨[(0, [1])], [(5, [(2, 3)])], [(0, 9)],
      some 1, true, [0]⟩ [(7, 7)]).missing 5 = some [(2, 3)] ∧
    (unregister_missing ⟨[(0, [1])], [(5, [(2, 3)])], [(0, 9)],
      some 1, true, [0]⟩ [(7, 7)]).watched = [(0, [1])] ∧
    (unregister_missing ⟨[(0, [1])], [(5, [(2, 3)])], [(0, 9)],
      some 1, true, [0]⟩ [(7, 7)]).loaded = [(0, 9)] :=
  C10_unregister_frame ⟨[(0, [1])], [(5, [(2, 3)])], [(0, 9)], some 1, true, [0]⟩
    [4] [(7, 7)] 0 [1] 5 [(2, 3)] (by decide) (by decide) (by decide)
    (by decide) (by decide) (by decide) (by decide)

/-! ## Closed forms for the worker-cycle phases when a sink is attached -/

theorem resolvePairs_sink (cond : CId → Key → CondRes) (k : Key)
    (pairs : List (CId × FId)) :
    resolvePairs true cond k pairs =
      ⟨pairs.filter (pairKept cond k), pairs.filterMap (pairFire cond k),
        pairs.filterMap (pairCall cond k), pairs.filterMap (pairLog cond k),
        false⟩ := by
  induction pairs with
  | nil => rfl
  | cons hd tl ih =>
    obtain ⟨c, f⟩ := hd
    cases h : cond c k with
    | raise =>
      simp [resolvePairs, exception, h, ih, List.filter_cons, List.filterMap_cons,
        pairKept, pairFire, pairCall, pairLog]
    | ret o =>
      cases o with
      | none =>
        simp [resolvePairs, h, ih, List.filter_cons, List.filterMap_cons,
          pairKept, pairFire, pairCall, pairLog]
      | some p =>
        simp [resolvePairs, h, ih, List.filter_cons, List.filterMap_cons,
          pairKept, pairFire, pairCall, pairLog]

theorem resolveMissing_sink (cond : CId → Key → CondRes)
    (m : List (Key × List (CId × FId))) :
    resolveMissing true cond m =
      ⟨m.filterMap (fun e =>
          if (e.2.filter (pairKept cond e.1)).isEmpty then none
          else some (e.1, e.2.filter (pairKept cond e.1))),
        m.flatMap (fun e => e.2.filterMap (pairFire cond e.1)),
        m.flatMap (fun e => e.2.filterMap (pairCall cond e.1)),
        m.flatMap (fun e => e.2.filterMap (pairLog cond e.1)),
        false⟩ := by
  induction m with
  | nil => rfl
  | cons hd tl ih =>
    obtain ⟨k, pairs⟩ := hd
    rw [resolveMissing, resolvePairs_sink, ih]
    cases hbe : (pairs.filter (pairKept cond k)).isEmpty <;>
      simp [List.filterMap_cons, List.flatMap_cons, hbe, List.isEmpty_iff]

theorem reloadPaths_sink (ld : FPath → Option Value) (toload : List FPath)
    (loaded : List (FPath × Value)) :
    reloadPaths true ld toload loaded =
      ⟨toload.foldl (fun acc p =>
          match ld p with
          | some v => setAssoc acc p v
          | none => acc) loaded,
        toload.filterMap (fun p =>
          match ld p with
          | none => some ("config_loader", LogEntry.loadError p)
          | some _ => none),
        false⟩ := by
  induction toload generalizing loaded with
  | nil => rfl
  | cons p rest ih =>
    cases h : ld p with
    | some v => simp [reloadPaths, h, ih, List.filterMap_cons, List.foldl_cons]
    | none => simp [reloadPaths, exception, h, ih, List.filterMap_cons, List.foldl_cons]

theorem reload_foldl_lookup_preserved (ld : FPath → Option Value)
    (toload : List FPath) (acc : List (FPath × Value)) (p : FPath) (v : Value)
    (hld : ld p = some v) (hacc : alookup acc p = some v) :
    alookup (toload.foldl (fun acc q =>
      match ld q with
      | some w => setAssoc acc q w
      | none => acc) acc) p = some v := by
  induction toload generalizing acc with
  | nil => simpa using hacc
  | cons q rest ih =>
    rw [List.foldl_cons]
    by_cases hqp : q = p
    · subst hqp
      rw [hld]
      exact ih _ (alookup_setAssoc_self acc q v)
    · cases hq : ld q with
      | some w => exact ih _ (by rw [alookup_setAssoc_ne acc q p w (Ne.symm hqp)]; exact hacc)
      | none => exact ih _ hacc

theorem reload_foldl_lookup_succ (ld : FPath → Option Value)
    (toload : List FPath) (acc : List (FPath × Value)) (p : FPath) (v : Value)
    (hld : ld p = some v) (hp : p ∈ toload) :
    alookup (toload.foldl (fun acc q =>
      match ld q with
      | some w => setAssoc acc q w
      | none => acc) acc) p = some v := by
  induction toload generalizing acc with
  | nil => simp at hp
  | cons q rest ih =>
    rw [List.foldl_cons]
    by_cases hqp : q = p
    · subst hqp
      rw [hld]
      exact reload_foldl_lookup_preserved ld rest _ q v hld (alookup_setAssoc_self acc q v)
    · have hpr : p ∈ rest := by
        rcases List.mem_cons.mp hp with h | h
        · exact absurd h.symm hqp
        · exact h
      cases hq : ld q with
      | some w => exact ih _ hpr
      | none => exact ih _ hpr

theorem reload_foldl_lookup_fail (ld : FPath → Option Value)
    (toload : List FPath) (acc : List (FPath × Value)) (p : FPath)
    (hld : ld p = none) :
    alookup (toload.foldl (fun acc q =>
      match ld q with
      | some w => setAssoc acc q w
      | none => acc) acc) p = alookup acc p := by
  induction toload generalizing acc with
  | nil => rfl
  | cons q rest ih =>
    rw [List.foldl_cons]
    by_cases hqp : q = p
    · subst hqp
      rw [hld]
      exact ih _
    · cases hq : ld q with
      | some w => rw [ih _, alookup_setAssoc_ne acc q p w (Ne.symm hqp)]
      | none => exact ih _

/-! ## C4 -/

/-- C4: in the reload phase with an error sink attached, for every recorded
path `p`: a loader failure is logged through the error hook and leaves the
previous Cache entry (if any) for `p` untouched; a loader success replaces
the Cache entry for `p` wholesale with the new value; and no failure aborts
the phase, so every other recorded path is still reloaded (the phase result
equals the fold over the whole list). -/
theorem C4_reload_failure_isolated (ld : FPath → Option Value)
    (toload : List FPath) (loaded : List (FPath × Value)) (p : FPath)
    (hp : p ∈ toload) :
    (reloadPaths true ld toload loaded).aborted = false ∧
    (ld p = none →
      ("config_loader", LogEntry.loadError p) ∈ (reloadPaths true ld toload loaded).logs ∧
      alookup (reloadPaths true ld toload loaded).loaded p = alookup loaded p) ∧
    (∀ v, ld p = some v →
      alookup (reloadPaths true ld toload loaded).loaded p = some v) := by
  rw [reloadPaths_sink]
  refine ⟨rfl, fun hld => ⟨?_, ?_⟩, fun v hld => ?_⟩
  · exact List.mem_filterMap.mpr ⟨p, hp, by rw [hld]⟩
  · exact reload_foldl_lookup_fail ld toload loaded p hld
  · exact reload_foldl_lookup_succ ld toload loaded p v hld hp

/-- Witness for C4: path 1 fails to load (previous value 7 kept, failure
logged), path 2 succeeds and is reloaded in the same cycle. -/
theorem C4_reload_failure_isolated_witness :
    (reloadPaths true (fun q => if q = 1 then none else some 5) [1, 2]
      [(1, 7)]).aborted = false ∧
    (("config_loader", LogEntry.loadError 1) ∈
      (reloadPaths true (fun q => if q = 1 then none else some 5) [1, 2]
        [(1, 7)]).logs ∧
      alookup (reloadPaths true (fun q => if q = 1 then none else some 5) [1, 2]
        [(1, 7)]).loaded 1 = alookup ([(1, 7)] : List (FPath × Value)) 1) ∧
    alookup (reloadPaths true (fun q => if q = 1 then none else some 5) [1, 2]
      [(1, 7)]).loaded 2 = some 5 :=
  ⟨(C4_reload_failure_isolated (fun q => if q = 1 then none else some 5)
      [1, 2] [(1, 7)] 1 (by decide)).1,
    (C4_reload_failure_isolated (fun q => if q = 1 then none else some 5)
      [1, 2] [(1, 7)] 1 (by decide)).2.1 rfl,
    (C4_reload_failure_isolated (fun q => if q = 1 then none else some 5)
      [1, 2] [(1, 7)] 2 (by decide)).2.2 5 rfl⟩

theorem alookup_dropEmptyKey {α β : Type} [DecidableEq α] (pred : α → β → Bool)
    (l : List (α × List β)) (p : α) (s : List β)
    (hl : alookup l p = some s) (hne : s.filter (pred p) ≠ []) :
    alookup (l.filterMap (fun e =>
      if (e.2.filter (pred e.1)).isEmpty then none
      else some (e.1, e.2.filter (pred e.1)))) p = some (s.filter (pred p)) := by
  induction l with
  | nil => simp [alookup] at hl
  | cons hd tl ih =>
    obtain ⟨a, b⟩ := hd
    by_cases hap : a = p
    · subst hap
      simp [alookup] at hl
      subst hl
      have hbe : (b.filter (pred a)).isEmpty = false := by
        simpa [List.isEmpty_iff] using hne
      rw [List.filterMap_cons, hbe]
      simp [alookup]
    · simp only [alookup, hap, ite_false] at hl
      cases hbe : (b.filter (pred a)).isEmpty with
      | true => rw [List.filterMap_cons, hbe]; exact ih hl
      | false =>
        rw [List.filterMap_cons, hbe]
        simp only [alookup, hap, ite_false]
        exact ih hl

/-- Closed form of one worker cycle when an error sink is attached: no
abort; the missing map keeps exactly the pairs whose condition did not
return a truthy path, dropping emptied keys; calls and logs aggregate the
per-pair outcomes; the reload fold applies every successful load. -/
theorem runCycle_sink (st : State) (pending : List FPath)
    (cond : CId → Key → CondRes) (ld : FPath → Option Value)
    (hpl : st.pl = true) :
    runCycle st pending cond ld =
      ⟨{ st with
          missing := st.missing.filterMap (fun e =>
            if (e.2.filter (pairKept cond e.1)).isEmpty then none
            else some (e.1, e.2.filter (pairKept cond e.1))),
          loaded := ((detectAll st.watched pending).toload ++
            st.missing.flatMap (fun e => e.2.filterMap (pairFire cond e.1))).foldl
            (fun acc p =>
              match ld p with
              | some v => setAssoc acc p v
              | none => acc) st.loaded },
        (detectAll st.watched pending).pending,
        (detectAll st.watched pending).calls ++
          st.missing.flatMap (fun e => e.2.filterMap (pairCall cond e.1)),
        st.missing.flatMap (fun e => e.2.filterMap (pairLog cond e.1)) ++
          ((detectAll st.watched pending).toload ++
            st.missing.flatMap (fun e => e.2.filterMap (pairFire cond e.1))).filterMap
            (fun p =>
              match ld p with
              | none => some ("config_loader", LogEntry.loadError p)
              | some _ => none),
        false⟩ := by
  rw [runCycle, hpl, resolveMissing_sink, reloadPaths_sink]
  rfl

/-! ## C3 -/

/-- C3: with an error sink attached, a condition function that raises during
the missing-resolution phase is logged and skipped for that cycle: the cycle
does not abort, the raising pair `(c, f)` stays pending under its key `k`
(so it is retried next cycle), and every other pending pair is still
checked — in particular any pair `(c', f')` under any key `k'` whose
condition returns a truthy path `p'` still has its callback invoked. -/
theorem C3_condition_failure_isolated (st : State) (pending : List FPath)
    (cond : CId → Key → CondRes) (ld : FPath → Option Value)
    (k : Key) (pairs : List (CId × FId)) (c f : CId)
    (k' : Key) (pairs' : List (CId × FId)) (c' f' : CId) (p' : FPath)
    (hpl : st.pl = true)
    (hk : alookup st.missing k = some pairs) (hcf : (c, f) ∈ pairs)
    (hraise : cond c k = CondRes.raise)
    (hk' : (k', pairs') ∈ st.missing) (hcf' : (c', f') ∈ pairs')
    (htruthy : cond c' k' = CondRes.ret (some p')) :
    (runCycle st pending cond ld).aborted = false ∧
    ("config_loader", LogEntry.condError k) ∈ (runCycle st pending cond ld).logs ∧
    alookup (runCycle st pending cond ld).state.missing k
      = some (pairs.filter (pairKept cond k)) ∧
    (c, f) ∈ pairs.filter (pairKept cond k) ∧
    (f', p') ∈ (runCycle st pending cond ld).calls := by
  have hkept : (c, f) ∈ pairs.filter (pairKept cond k) :=
    List.mem_filter.mpr ⟨hcf, by simp [pairKept, hraise]⟩
  rw [runCycle_sink st pending cond ld hpl]
  refine ⟨rfl, ?_, ?_, hkept, ?_⟩
  · exact List.mem_append.mpr (Or.inl (List.mem_flatMap.mpr
      ⟨(k, pairs), alookup_some_mem hk,
        List.mem_filterMap.mpr ⟨(c, f), hcf, by simp [pairLog, hraise]⟩⟩))
  · exact alookup_dropEmptyKey (pairKept cond) st.missing k pairs hk
      (List.ne_nil_of_mem hkept)
  · exact List.mem_append.mpr (Or.inr (List.mem_flatMap.mpr
      ⟨(k', pairs'), hk',
        List.mem_filterMap.mpr ⟨(c', f'), hcf', by simp [pairCall, htruthy]⟩⟩))

/-- Witness for C3: key 0 holds the raising pair (1, 2); key 5 holds the
pair (3, 4) whose condition resolves to path 8; callback 4 still fires. -/
theorem C3_condition_failure_isolated_witness :
    (runCycle ⟨[], [(0, [(1, 2)]), (5, [(3, 4)])], [], some 1, true, []⟩ []
      (fun c _ => if c = 1 then CondRes.raise else CondRes.ret (some 8))
      (fun _ => some 9)).aborted = false ∧
    ("config_loader", LogEntry.condError 0) ∈
      (runCycle ⟨[], [(0, [(1, 2)]), (5, [(3, 4)])], [], some 1, true, []⟩ []
        (fun c _ => if c = 1 then CondRes.raise else CondRes.ret (some 8))
        (fun _ => some 9)).logs ∧
    alookup (runCycle ⟨[], [(0, [(1, 2)]), (5, [(3, 4)])], [], some 1, true, []⟩ []
      (fun c _ => if c = 1 then CondRes.raise else CondRes.ret (some 8))
      (fun _ => some 9)).state.missing 0
      = some ([(1, 2)].filter (pairKept
          (fun c _ => if c = 1 then CondRes.raise else CondRes.ret (some 8)) 0)) ∧
    ((1 : CId), (2 : FId)) ∈ [((1 : CId), (2 : FId))].filter (pairKept
      (fun c _ => if c = 1 then CondRes.raise else CondRes.ret (some 8)) 0) ∧
    ((4 : FId), (8 : FPath)) ∈
      (runCycle ⟨[], [(0, [(1, 2)]), (5, [(3, 4)])], [], some 1, true, []⟩ []
        (fun c _ => if c = 1 then CondRes.raise else CondRes.ret (some 8))
        (fun _ => some 9)).calls :=
  C3_condition_failure_isolated
    ⟨[], [(0, [(1, 2)]), (5, [(3, 4)])], [], some 1, true, []⟩ []
    (fun c _ => if c = 1 then CondRes.raise else CondRes.ret (some 8))
    (fun _ => some 9) 0 [(1, 2)] 1 2 5 [(3, 4)] 3 4 8
    rfl (by decide) (by decide) rfl (by decide) (by decide) rfl

/-! ## Invariant lemmas (C7) -/

theorem mem_setAssoc {α β : Type} [DecidableEq α] {l : List (α × β)}
    {k : α} {v : β} {e : α × β} (he : e ∈ setAssoc l k v) :
    e ∈ l ∨ e = (k, v) := by
  induction l with
  | nil => simpa [setAssoc] using he
  | cons hd tl ih =>
    obtain ⟨a, b⟩ := hd
    by_cases hak : a = k
    · subst hak
      simp only [setAssoc, if_pos rfl] at he
      rcases List.mem_cons.mp he with h | h
      · exact Or.inr h
      · exact Or.inl (List.mem_cons_of_mem _ h)
    · simp only [setAssoc, hak, ite_false] at he
      rcases List.mem_cons.mp he with h | h
      · exact Or.inl (h ▸ List.mem_cons_self _ _)
      · rcases ih h with h' | h'
        · exact Or.inl (List.mem_cons_of_mem _ h')
        · exact Or.inr h'

theorem addToSet_ne_nil {α : Type} [DecidableEq α] (s : List α) (x : α) :
    addToSet s x ≠ [] := by
  rw [addToSet]
  by_cases hx : x ∈ s
  · simp only [hx, ite_true]
    exact List.ne_nil_of_mem hx
  · simp [hx]

theorem mem_filterMap_prop {α β : Type} {F : α → Option β} {P : β → Prop}
    (hF : ∀ a x, F a = some x → P x) {l : List α} {x : β}
    (hx : x ∈ l.filterMap F) : P x := by
  rw [List.mem_filterMap] at hx
  obtain ⟨a, _, ha⟩ := hx
  exact hF a x ha

theorem resolvePairs_aborted_remaining_ne_nil (pl : Bool)
    (cond : CId → Key → CondRes) (k : Key) (pairs : List (CId × FId))
    (hab : (resolvePairs pl cond k pairs).aborted = true) :
    (resolvePairs pl cond k pairs).remaining ≠ [] := by
  induction pairs with
  | nil => simp [resolvePairs] at hab
  | cons hd tl ih =>
    obtain ⟨c, f⟩ := hd
    rw [resolvePairs] at hab ⊢
    cases h : cond c k with
    | raise =>
      cases hexc : exception pl (LogEntry.condError k) with
      | some entry => simp [h, hexc]
      | none => simp [h, hexc]
    | ret o =>
      cases o with
      | none => simp [h]
      | some p =>
        have hab' : (resolvePairs pl cond k tl).aborted = true := by
          simpa [h] using hab
        simpa [h] using ih hab'

theorem resolveMissing_entries_ne_nil (pl : Bool) (cond : CId → Key → CondRes)
    (m : List (Key × List (CId × FId))) (hm : ∀ e ∈ m, e.2 ≠ []) :
    ∀ e ∈ (resolveMissing pl cond m).missing, e.2 ≠ [] := by
  induction m with
  | nil => simp [resolveMissing]
  | cons hd tl ih =>
    obtain ⟨k, pairs⟩ := hd
    intro e he
    rw [resolveMissing] at he
    by_cases hab : (resolvePairs pl cond k pairs).aborted
    · simp only [hab, ite_true] at he
      rcases List.mem_cons.mp he with h | h
      · rw [h]
        exact resolvePairs_aborted_remaining_ne_nil pl cond k pairs hab
      · exact hm e (List.mem_cons_of_mem _ h)
    · simp only [hab, ite_false, Bool.false_eq_true] at he
      rcases List.mem_append.mp he with h | h
      · by_cases hbe : (resolvePairs pl cond k pairs).remaining.isEmpty
        · simp [hbe] at h
        · simp only [hbe, Bool.false_eq_true, ite_false, List.mem_singleton] at h
          rw [h]
          simpa [List.isEmpty_iff] using hbe
      · exact ih (fun e' he' => hm e' (List.mem_cons_of_mem _ he')) e h

/-! ## C7 -/

/-- C7: every operation of the ConfigLoader (register, register_missing,
unregister_functions, unregister_missing, and a worker-loop cycle —
including one that aborts via the no-sink exception path) preserves the
invariant that a path is present in the Registry iff its callback set is
non-empty, and a key is present in the MissingRegistry iff its pair set is
non-empty. -/
theorem C7_registry_invariant (st : State) (f : FId) (p : FPath) (c : CId)
    (k : Key) (removedF : List FId) (removedP : List (CId × FId))
    (pending : List FPath) (cond : CId → Key → CondRes)
    (ld : FPath → Option Value) (hInv : RegInv st) :
    RegInv (register st f p) ∧
    RegInv (register_missing st c f k) ∧
    RegInv (unregister_functions st removedF) ∧
    RegInv (unregister_missing st removedP) ∧
    RegInv (runCycle st pending cond ld).state := by
  obtain ⟨hw, hm⟩ := hInv
  refine ⟨⟨?_, hm⟩, ⟨hw, ?_⟩, ⟨?_, hm⟩, ⟨hw, ?_⟩, ?_⟩
  · intro e he
    rcases mem_setAssoc he with h | h
    · exact hw e h
    · rw [h]
      exact addToSet_ne_nil _ _
  · intro e he
    rcases mem_setAssoc he with h | h
    · exact hm e h
    · rw [h]
      exact addToSet_ne_nil _ _
  · intro e he
    simp only [unregister_functions] at he
    refine @mem_filterMap_prop _ _ _ (fun x => x.2 ≠ []) ?_ _ _ he
    intro a x hx
    by_cases hb : (remainingFns removedF a.2).isEmpty
    · simp [hb] at hx
    · simp only [hb, Bool.false_eq_true, ite_false, Option.some.injEq] at hx
      rw [← hx]
      simpa [List.isEmpty_iff] using hb
  · intro e he
    simp only [unregister_missing] at he
    refine @mem_filterMap_prop _ _ _ (fun x => x.2 ≠ []) ?_ _ _ he
    intro a x hx
    by_cases hb : (a.2.filter (fun q => ! decide (q ∈ removedP))).isEmpty
    · simp [hb] at hx
    · simp only [hb, Bool.false_eq_true, ite_false, Option.some.injEq] at hx
      rw [← hx]
      simpa [List.isEmpty_iff] using hb
  · have hwa : (runCycle st pending cond ld).state.watched = st.watched := by
      rw [runCycle]
      by_cases hab : (resolveMissing st.pl cond st.missing).aborted <;> simp [hab]
    have hmi : (runCycle st pending cond ld).state.missing
        = (resolveMissing st.pl cond st.missing).missing := by
      rw [runCycle]
      by_cases hab : (resolveMissing st.pl cond st.missing).aborted <;> simp [hab]
    refine ⟨?_, ?_⟩
    · rw [hwa]; exact hw
    · rw [hmi]
      exact resolveMissing_entries_ne_nil st.pl cond st.missing hm

/-- Witness for C7 at a concrete state satisfying the invariant. -/
theorem C7_registry_invariant_witness :
    RegInv (register ⟨[(0, [1])], [(5, [(2, 3)])], [], some 1, true, [0]⟩ 6 7) ∧
    RegInv (register_missing ⟨[(0, [1])], [(5, [(2, 3)])], [], some 1, true, [0]⟩
      8 6 10) ∧
    RegInv (unregister_functions ⟨[(0, [1])], [(5, [(2, 3)])], [], some 1, true, [0]⟩
      [1]) ∧
    RegInv (unregister_missing ⟨[(0, [1])], [(5, [(2, 3)])], [], some 1, true, [0]⟩
      [(2, 3)]) ∧
    RegInv (runCycle ⟨[(0, [1])], [(5, [(2, 3)])], [], some 1, true, [0]⟩ [0]
      (fun _ _ => CondRes.ret (some 4)) (fun _ => some 9)).state :=
  C7_registry_invariant ⟨[(0, [1])], [(5, [(2, 3)])], [], some 1, true, [0]⟩
    6 7 8 10 [1] [(2, 3)] [0] (fun _ _ => CondRes.ret (some 4))
    (fun _ => some 9) (by constructor <;> decide)

/-! ## Lemmas about whole-loop runs (C2, C8, C9) -/

theorem runCycle_idle (st : State) (pending : List FPath)
    (cond : CId → Key → CondRes) (ld : FPath → Option Value)
    (hw : st.watched = []) (hm : st.missing = []) :
    runCycle st pending cond ld = ⟨st, pending, [], [], false⟩ := by
  obtain ⟨w, m, l, i, pl, ws⟩ := st
  simp only at hw hm
  subst hw
  subst hm
  rfl

theorem runLoop_idle (fuel n : Nat) (st : State) (pending : List FPath)
    (envf : Nat → Env) (sig : Nat → Bool)
    (hw : st.watched = []) (hm : st.missing = []) :
    (runLoop fuel n st pending envf sig).calls = [] ∧
    (runLoop fuel n st pending envf sig).state.missing = [] := by
  induction fuel generalizing n st pending with
  | zero => exact ⟨rfl, hm⟩
  | succ fuel ih =>
    rw [runLoop]
    by_cases hint : st.interval = none
    · simp [hint, hm]
    · by_cases hsig : sig n
      · simp [hint, hsig, hm]
      · simp only [hint, hsig, ite_false, Bool.false_eq_true]
        rw [runCycle_idle st _ _ _ hw hm]
        simp only [List.map_nil, List.nil_append, Bool.false_eq_true, if_false]
        exact ih (n + 1) st _ hw hm

theorem runCycle_pre_falsy (k : Key) (c : CId) (f : FId) (i : Nat) (pl : Bool)
    (pending : List FPath) (cond : CId → Key → CondRes) (ld : FPath → Option Value)
    (hc : cond c k = CondRes.ret none) :
    runCycle ⟨[], [(k, [(c, f)])], [], some i, pl, []⟩ pending cond ld
      = ⟨⟨[], [(k, [(c, f)])], [], some i, pl, []⟩, pending, [], [], false⟩ := by
  simp [runCycle, detectAll, resolveMissing, resolvePairs, reloadPaths, hc]

theorem runCycle_pre_truthy (k : Key) (c : CId) (f : FId) (P : FPath) (i : Nat)
    (pl : Bool) (pending : List FPath) (cond : CId → Key → CondRes)
    (ld : FPath → Option Value) (hc : cond c k = CondRes.ret (some P)) :
    (runCycle ⟨[], [(k, [(c, f)])], [], some i, pl, []⟩ pending cond ld).calls
      = [(f, P)] ∧
    (runCycle ⟨[], [(k, [(c, f)])], [], some i, pl, []⟩ pending cond ld).state.missing
      = [] ∧
    (runCycle ⟨[], [(k, [(c, f)])], [], some i, pl, []⟩ pending cond ld).state.watched
      = [] ∧
    (runCycle ⟨[], [(k, [(c, f)])], [], some i, pl, []⟩ pending cond ld).pending
      = pending := by
  simp [runCycle, detectAll, resolveMissing, resolvePairs, hc]

theorem runLoop_pre (k : Key) (c : CId) (f : FId) (P : FPath) (i : Nat)
    (pl : Bool) (envf : Nat → Env) (d : Nat) :
    ∀ (n fuel : Nat) (pending : List FPath),
      d + 1 ≤ fuel →
      (∀ j, j < d → (envf (n + j)).cond c k = CondRes.ret none) →
      (envf (n + d)).cond c k = CondRes.ret (some P) →
      (runLoop fuel n ⟨[], [(k, [(c, f)])], [], some i, pl, []⟩ pending envf
        (fun _ => false)).calls = [(n + d, f, P)] ∧
      (runLoop fuel n ⟨[], [(k, [(c, f)])], [], some i, pl, []⟩ pending envf
        (fun _ => false)).state.missing = [] := by
  induction d with
  | zero =>
    intro n fuel pending hfuel hfalsy htruthy
    obtain ⟨fuel', rfl⟩ : ∃ fuel', fuel = fuel' + 1 := ⟨fuel - 1, by omega⟩
    have ht : (envf n).cond c k = CondRes.ret (some P) := by simpa using htruthy
    obtain ⟨hcalls, hmiss, hwatch, hpend⟩ :=
      runCycle_pre_truthy k c f P i pl (pending ++ (envf n).newChanges)
        (envf n).cond (envf n).ld ht
    rw [runLoop]
    by_cases hab : (runCycle ⟨[], [(k, [(c, f)])], [], some i, pl, []⟩
        (pending ++ (envf n).newChanges) (envf n).cond (envf n).ld).aborted
    · simp [hab, hcalls, hmiss]
    · have hidle := runLoop_idle fuel' (n + 1)
        (runCycle ⟨[], [(k, [(c, f)])], [], some i, pl, []⟩
          (pending ++ (envf n).newChanges) (envf n).cond (envf n).ld).state
        (runCycle ⟨[], [(k, [(c, f)])], [], some i, pl, []⟩
          (pending ++ (envf n).newChanges) (envf n).cond (envf n).ld).pending
        envf (fun _ => false) hwatch hmiss
      simp [hab, hcalls, hidle.1, hidle.2]
  | succ d ih =>
    intro n fuel pending hfuel hfalsy htruthy
    obtain ⟨fuel', rfl⟩ : ∃ fuel', fuel = fuel' + 1 := ⟨fuel - 1, by omega⟩
    have hf0 : (envf n).cond c k = CondRes.ret none := by
      simpa using hfalsy 0 (by omega)
    have hcyc := runCycle_pre_falsy k c f i pl (pending ++ (envf n).newChanges)
      (envf n).cond (envf n).ld hf0
    have harg : ∀ j, j < d → (envf (n + 1 + j)).cond c k = CondRes.ret none := by
      intro j hj
      have he : n + (j + 1) = n + 1 + j := by omega
      have := hfalsy (j + 1) (by omega)
      rwa [he] at this
    have htr : (envf (n + 1 + d)).cond c k = CondRes.ret (some P) := by
      have he : n + (d + 1) = n + 1 + d := by omega
      rwa [he] at htruthy
    have hrec := ih (n + 1) fuel' (pending ++ (envf n).newChanges) (by omega)
      harg htr
    simp only [runLoop]
    rw [hcyc]
    simp [hrec.1, hrec.2, show n + 1 + d = n + (d + 1) from by omega]

/-! ## C2 -/

/-- C2: starting from a MissingRegistry holding exactly the pair `(c, f)`
under key `k`, if the condition function returns a falsy value on the first
`N - 1` cycles and the truthy path `P` on the `N`-th cycle, then over any run
of `M ≥ N` cycles the callback `f` is invoked exactly once, with argument
`P`, during the `N`-th cycle (tag `N - 1` in the 0-indexed trace), and the
pair is removed with its key dropped, so no later cycle invokes it again
(the full `M`-cycle trace contains exactly that one call). -/
theorem C2_register_missing_resolved_once (k : Key) (c : CId) (f : FId)
    (P : FPath) (i : Nat) (pl : Bool) (envf : Nat → Env) (N M : Nat)
    (pending : List FPath)
    (hN : 1 ≤ N) (hM : N ≤ M)
    (hfalsy : ∀ j, j < N - 1 → (envf j).cond c k = CondRes.ret none)
    (htruthy : (envf (N - 1)).cond c k = CondRes.ret (some P)) :
    (runLoop M 0 ⟨[], [(k, [(c, f)])], [], some i, pl, []⟩ pending envf
      (fun _ => false)).calls = [(N - 1, f, P)] ∧
    (runLoop M 0 ⟨[], [(k, [(c, f)])], [], some i, pl, []⟩ pending envf
      (fun _ => false)).state.missing = [] := by
  have h := runLoop_pre k c f P i pl envf (N - 1) 0 M pending (by omega)
    (fun j hj => by simpa using hfalsy j hj) (by simpa using htruthy)
  simpa using h

/-- Witness for C2: condition 1 under key 0 is falsy on cycle 0 and yields
path 3 on cycle 1 (N = 2); over a 3-cycle run callback 2 fires exactly once,
on cycle 1, and the missing entry is gone. -/
theorem C2_register_missing_resolved_once_witness :
    (runLoop 3 0 ⟨[], [(0, [(1, 2)])], [], some 1, true, []⟩ []
      (fun j => ⟨[], fun _ _ => if j = 1 then CondRes.ret (some 3)
        else CondRes.ret none, fun _ => some 0⟩)
      (fun _ => false)).calls = [(1, 2, 3)] ∧
    (runLoop 3 0 ⟨[], [(0, [(1, 2)])], [], some 1, true, []⟩ []
      (fun j => ⟨[], fun _ _ => if j = 1 then CondRes.ret (some 3)
        else CondRes.ret none, fun _ => some 0⟩)
      (fun _ => false)).state.missing = [] :=
  C2_register_missing_resolved_once 0 1 2 3 1 true
    (fun j => ⟨[], fun _ _ => if j = 1 then CondRes.ret (some 3)
      else CondRes.ret none, fun _ => some 0⟩) 2 3 []
    (by omega) (by omega)
    (fun j hj => by
      have hj0 : j = 0 := by omega
      subst hj0
      rfl)
    rfl

/-! ## C8 -/

/-- C8: with a sink attached the error hook forwards the entry under the
fixed source tag `config_loader` and returns normally; with no sink attached
the hook itself raises.  Consequently a would-be-logged error inside the
worker loop — here a raising condition function on the first cycle with
`pl = false` — aborts that cycle: over any horizon `M ≥ 1` the loop runs
exactly one cycle, terminates aborted, logs nothing and never restarts. -/
theorem C8_no_sink_escalates (e : LogEntry) (k : Key) (c : CId) (f : FId)
    (i : Nat) (M : Nat) (pending : List FPath) (envf : Nat → Env)
    (hM : 1 ≤ M) (hraise : (envf 0).cond c k = CondRes.raise) :
    exception true e = some ("config_loader", e) ∧
    exception false e = none ∧
    (runLoop M 0 ⟨[], [(k, [(c, f)])], [], some i, false, []⟩ pending envf
      (fun _ => false)).aborted = true ∧
    (runLoop M 0 ⟨[], [(k, [(c, f)])], [], some i, false, []⟩ pending envf
      (fun _ => false)).cycles = 1 ∧
    (runLoop M 0 ⟨[], [(k, [(c, f)])], [], some i, false, []⟩ pending envf
      (fun _ => false)).calls = [] ∧
    (runLoop M 0 ⟨[], [(k, [(c, f)])], [], some i, false, []⟩ pending envf
      (fun _ => false)).logs = [] := by
  obtain ⟨M', rfl⟩ : ∃ M', M = M' + 1 := ⟨M - 1, by omega⟩
  have hcyc : runCycle ⟨[], [(k, [(c, f)])], [], some i, false, []⟩
      (pending ++ (envf 0).newChanges) (envf 0).cond (envf 0).ld
      = ⟨⟨[], [(k, [(c, f)])], [], some i, false, []⟩,
          pending ++ (envf 0).newChanges, [], [], true⟩ := by
    simp [runCycle, detectAll, resolveMissing, resolvePairs, exception, hraise]
  refine ⟨rfl, rfl, ?_, ?_, ?_, ?_⟩ <;>
    · simp only [runLoop]
      rw [hcyc]
      simp

/-- Witness for C8: a condition function that always raises, no sink. -/
theorem C8_no_sink_escalates_witness :
    exception true (LogEntry.condError 0) = some ("config_loader", LogEntry.condError 0) ∧
    exception false (LogEntry.condError 0) = none ∧
    (runLoop 4 0 ⟨[], [(0, [(1, 2)])], [], some 1, false, []⟩ []
      (fun _ => ⟨[], fun _ _ => CondRes.raise, fun _ => some 0⟩)
      (fun _ => false)).aborted = true ∧
    (runLoop 4 0 ⟨[], [(0, [(1, 2)])], [], some 1, false, []⟩ []
      (fun _ => ⟨[], fun _ _ => CondRes.raise, fun _ => some 0⟩)
      (fun _ => false)).cycles = 1 ∧
    (runLoop 4 0 ⟨[], [(0, [(1, 2)])], [], some 1, false, []⟩ []
      (fun _ => ⟨[], fun _ _ => CondRes.raise, fun _ => some 0⟩)
      (fun _ => false)).calls = [] ∧
    (runLoop 4 0 ⟨[], [(0, [(1, 2)])], [], some 1, false, []⟩ []
      (fun _ => ⟨[], fun _ _ => CondRes.raise, fun _ => some 0⟩)
      (fun _ => false)).logs = [] :=
  C8_no_sink_escalates (LogEntry.condError 0) 0 1 2 1 4 []
    (fun _ => ⟨[], fun _ _ => CondRes.raise, fun _ => some 0⟩)
    (by omega) rfl

/-! ## C9 -/

theorem runLoop_cycles_bound (envf : Nat → Env) (sig : Nat → Bool) (n₀ : Nat)
    (hmono : ∀ a b, a ≤ b → sig a = true → sig b = true)
    (hset : sig n₀ = true) :
    ∀ (fuel n : Nat) (st : State) (pending : List FPath),
      (runLoop fuel n st pending envf sig).cycles ≤ n₀ - n := by
  intro fuel
  induction fuel with
  | zero =>
    intro n st pending
    simp [runLoop]
  | succ fuel ih =>
    intro n st pending
    simp only [runLoop]
    by_cases hint : st.interval = none
    · simp [hint]
    · by_cases hsig : sig n
      · simp [hint, hsig]
      · have hlt : n < n₀ := by
          by_contra hge
          push_neg at hge
          rw [hmono n₀ n hge hset] at hsig
          exact hsig rfl
        have hr := ih (n + 1)
          (runCycle st (pending ++ (envf n).newChanges) (envf n).cond (envf n).ld).state
          (runCycle st (pending ++ (envf n).newChanges) (envf n).cond (envf n).ld).pending
        by_cases hab : (runCycle st (pending ++ (envf n).newChanges)
            (envf n).cond (envf n).ld).aborted
        · simp [hint, hsig, hab]
          omega
        · simp [hint, hsig, hab]
          omega

/-- C9: the worker loop exits immediately (zero cycles, state untouched)
when no interval is configured; it observes the ShutdownSignal at the start
of each cycle, so a set signal at an observation point stops it on the spot;
and for a monotone signal schedule that is set at observation point `n₀`, a
run starting at observation point `n` performs at most `n₀ - n` cycles —
once the signal is set no new cycle ever starts.  (The inter-cycle wait is
an observation point: a set signal makes `shutdown_event.wait` return at
once, which the model folds into the next loop-top check.) -/
theorem C9_shutdown_observed (st : State) (pending : List FPath)
    (envf : Nat → Env) (sig : Nat → Bool) (fuel n n₀ : Nat)
    (hmono : ∀ a b, a ≤ b → sig a = true → sig b = true)
    (hset : sig n₀ = true) :
    (st.interval = none →
      runLoop fuel n st pending envf sig = ⟨st, pending, [], [], 0, false⟩) ∧
    (sig n = true →
      runLoop fuel n st pending envf sig = ⟨st, pending, [], [], 0, false⟩) ∧
    (runLoop fuel n st pending envf sig).cycles ≤ n₀ - n := by
  refine ⟨?_, ?_, runLoop_cycles_bound envf sig n₀ hmono hset fuel n st pending⟩
  · intro hint
    cases fuel with
    | zero => rfl
    | succ fuel => simp [runLoop, hint]
  · intro hsig
    cases fuel with
    | zero => rfl
    | succ fuel =>
      by_cases hint : st.interval = none
      · simp [runLoop, hint]
      · simp [runLoop, hint, hsig]

/-- Witness for C9: the signal schedule becomes set from observation point 2
on; with an interval configured the loop runs at most 2 cycles, a start at a
set observation point runs none, and with no interval it exits at once. -/
theorem C9_shutdown_observed_witness :
    (runLoop 5 0 ⟨[], [], [], none, true, []⟩ []
      (fun _ => ⟨[], fun _ _ => CondRes.ret none, fun _ => some 0⟩)
      (fun j => decide (2 ≤ j))
      = ⟨⟨[], [], [], none, true, []⟩, [], [], [], 0, false⟩) ∧
    (runLoop 5 2 ⟨[], [], [], some 1, true, []⟩ []
      (fun _ => ⟨[], fun _ _ => CondRes.ret none, fun _ => some 0⟩)
      (fun j => decide (2 ≤ j))
      = ⟨⟨[], [], [], some 1, true, []⟩, [], [], [], 0, false⟩) ∧
    (runLoop 5 0 ⟨[], [], [], some 1, true, []⟩ []
      (fun _ => ⟨[], fun _ _ => CondRes.ret none, fun _ => some 0⟩)
      (fun j => decide (2 ≤ j))).cycles ≤ 2 :=
  ⟨(C9_shutdown_observed ⟨[], [], [], none, true, []⟩ []
      (fun _ => ⟨[], fun _ _ => CondRes.ret none, fun _ => some 0⟩)
      (fun j => decide (2 ≤ j)) 5 0 2
      (fun a b hab ha => by
        simp only [decide_eq_true_eq] at ha ⊢
        omega)
      (by decide)).1 rfl,
    (C9_shutdown_observed ⟨[], [], [], some 1, true, []⟩ []
      (fun _ => ⟨[], fun _ _ => CondRes.ret none, fun _ => some 0⟩)
      (fun j => decide (2 ≤ j)) 5 2 2
      (fun a b hab ha => by
        simp only [decide_eq_true_eq] at ha ⊢
        omega)
      (by decide)).2.1 (by decide),
    (C9_shutdown_observed ⟨[], [], [], some 1, true, []⟩ []
      (fun _ => ⟨[], fun _ _ => CondRes.ret none, fun _ => some 0⟩)
      (fun j => decide (2 ≤ j)) 5 0 2
      (fun a b hab ha => by
        simp only [decide_eq_true_eq] at ha ⊢
        omega)
      (by decide)).2.2⟩
